import Mathlib

set_option maxHeartbeats 2000000
set_option maxRecDepth 4000

/-!
A shallow embedding of the expression evaluator of `src/gb_calc.c` (the
`gVtCalc` repository) together with theorems settling the frozen claims
about it.

Modelling conventions:

* C strings are NUL-free `List Char` values; the terminating NUL of the C
  string corresponds to the end of the list.  A possibly-NULL `const char *`
  argument is `Option (List Char)`.
* C `double` values are modelled by `Val`: an exact rational for finite
  doubles plus the IEEE-754 classes `inf`, `ninf` and `nan`.  The arithmetic
  the evaluator performs itself (`+ - * / %`, comparisons, negation, logical
  and bitwise not, integer powers) is exact on these classes; the math
  library functions the C file merely calls (`sin`, `sqrt`, `log`, ...,
  and `pow` on non-integer exponents) are external collaborators and are
  a parameter `LibM` of the machine, exactly like libm is to the C file.
* The two 32-slot stacks `num_lifo` / `op__lifo` are modelled as lists,
  plus two ghost flags `oobRead` / `oobWrite` that record any access the C
  code would perform outside the bounds of the 32-slot arrays (undefined
  behaviour in C).  Once a flag is set the list semantics is one possible
  refinement of the C program's undefined behaviour; theorems about inputs
  that set a flag only ever observe the flag itself.
* Diagnostics written to `stderr` by the C code are accumulated in order in
  the `errs` field, one `Err` tag per `fprintf` site, named after the error
  taxonomy of the specification (§7).
* The top-level scan loop of `gb_calc` can genuinely diverge (see claim C1),
  so it takes explicit fuel and returns `none` when the fuel is exhausted;
  the inner reduction loops are bounded by the operator-stack depth (each
  successful application pops one entry), and receive fuel
  `op__lifo.length + 1`, which is never exhausted.
-/

/-- Error kinds, one per `fprintf(stderr, ...)` site of `gb_calc.c`, named
after the specification's error taxonomy (§7).  `stackOverflow` is part of
the taxonomy but has no emission site in the C code. -/
inductive Err where
  | emptyOrNullInput
  | wrongDestinationBuffer
  | invalidExpression
  | mismatchedParentheses
  | operatorWithoutOperand
  | divisionByZero
  | moduloByZero
  | domainError
  | unknownOperator
  | stackOverflow
  deriving DecidableEq, Repr

/-- Model of a C `double`: exact rationals for the finite values, plus the
infinities and NaN. -/
inductive Val where
  | fin (q : ℚ)
  | inf
  | ninf
  | nan
  deriving DecidableEq, Repr

/-- IEEE negation. -/
def vneg : Val → Val
  | .fin q => .fin (-q)
  | .inf => .ninf
  | .ninf => .inf
  | .nan => .nan

/-- IEEE addition on the modelled classes. -/
def vadd : Val → Val → Val
  | .fin a, .fin b => .fin (a + b)
  | .fin _, .inf => .inf
  | .fin _, .ninf => .ninf
  | .inf, .fin _ => .inf
  | .inf, .inf => .inf
  | .inf, .ninf => .nan
  | .ninf, .fin _ => .ninf
  | .ninf, .inf => .nan
  | .ninf, .ninf => .ninf
  | .nan, _ => .nan
  | _, .nan => .nan

/-- IEEE subtraction: `a - b = a + (-b)` exactly on these classes. -/
def vsub (a b : Val) : Val := vadd a (vneg b)

/-- IEEE multiplication on the modelled classes (`0 * ±inf = nan`). -/
def vmul : Val → Val → Val
  | .fin a, .fin b => .fin (a * b)
  | .fin a, .inf => if 0 < a then .inf else if a < 0 then .ninf else .nan
  | .fin a, .ninf => if 0 < a then .ninf else if a < 0 then .inf else .nan
  | .inf, .fin b => if 0 < b then .inf else if b < 0 then .ninf else .nan
  | .ninf, .fin b => if 0 < b then .ninf else if b < 0 then .inf else .nan
  | .inf, .inf => .inf
  | .inf, .ninf => .ninf
  | .ninf, .inf => .ninf
  | .ninf, .ninf => .inf
  | .nan, _ => .nan
  | _, .nan => .nan

/-- IEEE division on the modelled classes.  The evaluator itself guards the
`b = 0` case before dividing; it is included to keep the function total
(the single model zero plays the role of IEEE `+0`). -/
def vdiv : Val → Val → Val
  | .fin a, .fin b =>
      if b = 0 then (if a = 0 then .nan else if 0 < a then .inf else .ninf)
      else .fin (a / b)
  | .fin _, .inf => .fin 0
  | .fin _, .ninf => .fin 0
  | .inf, .fin b => if b < 0 then .ninf else .inf
  | .ninf, .fin b => if b < 0 then .inf else .ninf
  | .inf, .inf => .nan
  | .inf, .ninf => .nan
  | .ninf, .inf => .nan
  | .ninf, .ninf => .nan
  | .nan, _ => .nan
  | _, .nan => .nan

/-- Truncation of a rational toward zero, as C's `(int)` cast and the
quotient used by `fmod`. -/
def qtrunc (q : ℚ) : ℤ :=
  if 0 ≤ q.num then ((q.num.toNat / q.den : ℕ) : ℤ)
  else -(((-q.num).toNat / q.den : ℕ) : ℤ)

/-- C `fmod` on the modelled classes: for finite arguments with nonzero
divisor, `fmod(a, b) = a - b * trunc(a / b)` exactly. -/
def vfmod : Val → Val → Val
  | .fin a, .fin b => if b = 0 then .nan else .fin (a - b * (qtrunc (a / b) : ℚ))
  | .fin a, .inf => .fin a
  | .fin a, .ninf => .fin a
  | .fin _, .nan => .nan
  | .inf, _ => .nan
  | .ninf, _ => .nan
  | .nan, _ => .nan

/-- C logical not `!num`: `1.0` when the operand compares equal to zero,
`0.0` otherwise (so `!inf = !nan = 0`). -/
def vlognot (v : Val) : Val := .fin (if v = .fin 0 then 1 else 0)

/-- C `~((int)num)`: truncate to an integer and complement.  The `(int)`
cast of a non-finite double is undefined in C; the model returns `nan`
there. -/
def vbitnot : Val → Val
  | .fin q => .fin ((-(qtrunc q) - 1 : ℤ) : ℚ)
  | _ => .nan

/-- IEEE `<` on the modelled classes (any comparison with NaN is false). -/
def vlt : Val → Val → Bool
  | .fin a, .fin b => a < b
  | .fin _, .inf => true
  | .fin _, .ninf => false
  | .inf, .fin _ => false
  | .ninf, .fin _ => true
  | .ninf, .inf => true
  | .inf, .ninf => false
  | .inf, .inf => false
  | .ninf, .ninf => false
  | .nan, _ => false
  | _, .nan => false

/-- IEEE `<=` on the modelled classes (any comparison with NaN is false). -/
def vle : Val → Val → Bool
  | .fin a, .fin b => a ≤ b
  | .fin _, .inf => true
  | .fin _, .ninf => false
  | .inf, .fin _ => false
  | .ninf, .fin _ => true
  | .ninf, .inf => true
  | .inf, .ninf => false
  | .inf, .inf => true
  | .ninf, .ninf => true
  | .nan, _ => false
  | _, .nan => false

/-- The math-library functions `gb_calc.c` calls but does not define: the
transcendental functions, `sqrt` and `log` on their happy path, the value of
`M_PI`, and `pow` outside the exact finite-base / integer-exponent case.
They are a parameter of the machine, exactly as libm is to the C file. -/
structure LibM where
  pi : ℚ
  sin_v : Val → Val
  asin_v : Val → Val
  cos_v : Val → Val
  acos_v : Val → Val
  tan_v : Val → Val
  atan_v : Val → Val
  sqrt_v : Val → Val
  exp_v : Val → Val
  log_v : Val → Val
  log2_v : Val → Val
  powFrac : ℚ → ℚ → Val
  powSpec : Val → Val → Val

/-- C `pow`: exact on a finite base with an integer exponent (IEEE requires
the exact value there, `pow(0, 0) = 1`, and `pow(0, negative) = +inf`);
fractional exponents and non-finite arguments are the library's. -/
def vpow (M : LibM) : Val → Val → Val
  | .fin a, .fin b =>
      if b.den = 1 then
        if 0 ≤ b.num then .fin (a ^ b.num.toNat)
        else if a = 0 then .inf
        else .fin ((a ^ (-b.num).toNat)⁻¹)
      else M.powFrac a b
  | x, y => M.powSpec x y

/-- A concrete `LibM` instantiation used by witnesses: every external
function returns `nan` and `pi` is a rational approximation.  No theorem
about a claim depends on these values. -/
def M0 : LibM where
  pi := 3141592653589793 / 1000000000000000
  sin_v := fun _ => Val.nan
  asin_v := fun _ => Val.nan
  cos_v := fun _ => Val.nan
  acos_v := fun _ => Val.nan
  tan_v := fun _ => Val.nan
  atan_v := fun _ => Val.nan
  sqrt_v := fun _ => Val.nan
  exp_v := fun _ => Val.nan
  log_v := fun _ => Val.nan
  log2_v := fun _ => Val.nan
  powFrac := fun _ _ => Val.nan
  powSpec := fun _ _ => Val.nan

/-- C `isdigit`: the character codes of `'0'`..`'9'`. -/
def isdigitC (c : Char) : Bool := 48 ≤ c.toNat && c.toNat ≤ 57

/-- C `isspace`: space and the five control whitespace characters. -/
def isspaceC (c : Char) : Bool := c.toNat = 32 || (9 ≤ c.toNat && c.toNat ≤ 13)

/-- The biased-character encoding of `gb_calc.c`: a unary marker is stored
as `(char)(ch + 128)` and decoded by `(char)((unsigned int)stored - 128)`;
on bytes both directions are addition of 128 modulo 256. -/
def xor128 (c : Char) : Char := Char.ofNat ((c.toNat + 128) % 256)

/-- `_is_binary_op` of `gb_calc.c`. -/
def is_binary_op (c : Char) : Bool :=
  c = '+' || c = '-' || c = '*' || c = '/' || c = '%' || c = '^'

/-- `_get_precedence` of `gb_calc.c`. -/
def get_precedence (c : Char) : ℕ :=
  if c = '^' then 4
  else if c = '*' || c = '/' || c = '%' then 3
  else if c = '+' || c = '-' then 2
  else 0

/-- `_is_unary_op` of `gb_calc.c`: a candidate is unary at the start of the
expression or after one of `! % ( * + - / ^ ~`.  The `headD` default is
never read: the function is called with `1 ≤ i ≤ length`.  -/
def is_unary_op (expr : List Char) (i : ℕ) : Bool :=
  if i = 0 then true
  else
    let prev := (expr.drop (i - 1)).headD ' '
    prev = '!' || prev = '%' || prev = '(' || prev = '*' || prev = '+' ||
    prev = '-' || prev = '/' || prev = '^' || prev = '~'

/-- `gb_strncmp(&expr[i], pat, pat.length) == 0` for a NUL-free pattern:
the next `pat.length` characters of `expr` are exactly `pat` (when fewer
remain, the C comparison stops at the terminating NUL and differs). -/
def matchAt (expr : List Char) (i : ℕ) (pat : List Char) : Bool :=
  (expr.drop i).take pat.length = pat

/-- Value of a decimal digit string, most significant first. -/
def digitsVal (ds : List Char) : ℕ :=
  ds.foldl (fun acc c => 10 * acc + (c.toNat - 48)) 0

/-- Model of C `strtod` at a position whose first character is a digit or
`'.'` (the only way `gb_calc.c` calls it, so no whitespace and no sign):
returns the parsed value and the number of characters consumed, which is 0
when no digits occur on either side of the radix point.  Hexadecimal and
`inf`/`nan` literal forms are outside the grammar the evaluator can reach
here (its first character is a digit or a dot followed by a digit for any
conversion to happen). -/
def strtod (s : List Char) : ℚ × ℕ :=
  let ip := s.takeWhile isdigitC
  let r1 := s.drop ip.length
  let hasDot := r1.head? = some '.'
  let fp := if hasDot then (r1.drop 1).takeWhile isdigitC else []
  let fracC := if hasDot then fp.length + 1 else 0
  let r2 := r1.drop fracC
  if ip.length = 0 ∧ fp.length = 0 then (0, 0)
  else
    let base : ℚ := (digitsVal ip : ℚ) + (digitsVal fp : ℚ) / (10 : ℚ) ^ fp.length
    let c1 := ip.length + fracC
    match r2 with
    | e :: rest =>
        if e = 'e' ∨ e = 'E' then
          let sgnNeg := rest.head? = some '-'
          let sgnC := if rest.head? = some '-' ∨ rest.head? = some '+' then 1 else 0
          let eds := (rest.drop sgnC).takeWhile isdigitC
          if eds.length = 0 then (base, c1)
          else
            let ev : ℤ := if sgnNeg then -(digitsVal eds : ℤ) else (digitsVal eds : ℤ)
            (base * (10 : ℚ) ^ ev, c1 + 1 + sgnC + eds.length)
        else (base, c1)
    | [] => (base, c1)

/-- The evaluation state `calc_context_t` of `gb_calc.c`.  The stacks grow
at the head; `oobRead` / `oobWrite` are ghost flags recording accesses the C
code would make outside the 32-slot arrays (undefined behaviour). -/
structure Ctx where
  expr : List Char
  num_lifo : List Val
  op__lifo : List Char
  i : ℕ
  errs : List Err
  oobRead : Bool
  oobWrite : Bool
  deriving DecidableEq, Repr

/-- `num_lifo[++num_top] = v`; sets the ghost flag when the write would land
at index 32 or beyond. -/
def pushNum (v : Val) (ctx : Ctx) : Ctx :=
  { ctx with num_lifo := v :: ctx.num_lifo,
             oobWrite := if 32 ≤ ctx.num_lifo.length then true else ctx.oobWrite }

/-- `num_lifo[num_top--]`; reading an empty stack is the out-of-bounds read
`num_lifo[-1]` (the junk value read is modelled as `0`). -/
def popNum (ctx : Ctx) : Val × Ctx :=
  match ctx.num_lifo with
  | [] => (.fin 0, { ctx with oobRead := true })
  | v :: t => (v, { ctx with num_lifo := t })

/-- `op__lifo[++op__top] = c`; sets the ghost flag when the write would land
at index 32 or beyond. -/
def pushOp (c : Char) (ctx : Ctx) : Ctx :=
  { ctx with op__lifo := c :: ctx.op__lifo,
             oobWrite := if 32 ≤ ctx.op__lifo.length then true else ctx.oobWrite }

/-- `op__lifo[op__top--]`; reading an empty stack is out of bounds. -/
def popOp (ctx : Ctx) : Char × Ctx :=
  match ctx.op__lifo with
  | [] => (Char.ofNat 0, { ctx with oobRead := true })
  | c :: t => (c, { ctx with op__lifo := t })

/-- One diagnostic printed to `stderr`. -/
def addErr (e : Err) (ctx : Ctx) : Ctx := { ctx with errs := ctx.errs ++ [e] }

/-- A batch of diagnostics printed to `stderr`. -/
def addErrs (es : List Err) (ctx : Ctx) : Ctx := { ctx with errs := ctx.errs ++ es }

/-- `ctx->expr[ctx->i]`, with `none` for the terminating NUL. -/
def getCh (ctx : Ctx) : Option Char := (ctx.expr.drop ctx.i).head?

/-- `_apply_unary_op` of `gb_calc.c`: if the operator-stack top decodes
(via the biased encoding) to `-`, `!` or `~`, pop it and push the unary
result; otherwise report failure and leave the context unchanged. -/
def apply_unary_op (ctx : Ctx) (num : Val) : Bool × Ctx :=
  match ctx.op__lifo with
  | [] => (false, ctx)
  | top :: rest =>
      let op := xor128 top
      if op = '-' then (true, pushNum (vneg num) { ctx with op__lifo := rest })
      else if op = '!' then (true, pushNum (vlognot num) { ctx with op__lifo := rest })
      else if op = '~' then (true, pushNum (vbitnot num) { ctx with op__lifo := rest })
      else (false, ctx)

/-- The function-marker table of `_apply_unary_func`'s switch: for a
function tag, the value to push together with the diagnostics printed;
`none` for a character that is not a function marker.  `sqrt` of a negative
argument and `log`/`log2` of a non-positive argument report a domain error
and yield the `inf` sentinel. -/
def unary_func_val (M : LibM) (num : Val) : Char → Option (Val × List Err)
  | 's' => some (M.sin_v num, [])
  | 'S' => some (M.asin_v num, [])
  | 'c' => some (M.cos_v num, [])
  | 'C' => some (M.acos_v num, [])
  | 't' => some (M.tan_v num, [])
  | 'T' => some (M.atan_v num, [])
  | 'q' => some (if vlt num (.fin 0) then (.inf, [.domainError]) else (M.sqrt_v num, []))
  | 'e' => some (M.exp_v num, [])
  | 'l' => some (if vle num (.fin 0) then (.inf, [.domainError]) else (M.log_v num, []))
  | 'L' => some (if vle num (.fin 0) then (.inf, [.domainError]) else (M.log2_v num, []))
  | _ => none

/-- `_apply_unary_func` of `gb_calc.c`: if the operator-stack top is a
function marker, pop it, print any diagnostic and push the function value;
otherwise report failure and leave the context unchanged. -/
def apply_unary_func (M : LibM) (ctx : Ctx) (num : Val) : Bool × Ctx :=
  match ctx.op__lifo with
  | [] => (false, ctx)
  | top :: rest =>
      match unary_func_val M num top with
      | none => (false, ctx)
      | some (v, es) => (true, pushNum v (addErrs es { ctx with op__lifo := rest }))

/-- `_apply_binary_op` of `gb_calc.c`, returning the value together with the
diagnostics it prints: `/` and `%` by zero report their error and yield the
positive-infinity sentinel. -/
def apply_binary_op (M : LibM) (a b : Val) (op : Char) : Val × List Err :=
  if op = '+' then (vadd a b, [])
  else if op = '-' then (vsub a b, [])
  else if op = '*' then (vmul a b, [])
  else if op = '/' then
    if b = .fin 0 then (.inf, [.divisionByZero]) else (vdiv a b, [])
  else if op = '%' then
    if b = .fin 0 then (.inf, [.moduloByZero]) else (vfmod a b, [])
  else if op = '^' then (vpow M a b, [])
  else (.inf, [.unknownOperator])

/-- `_apply_operator` of `gb_calc.c`: pop one operand; try the unary-marker
and function-marker appliers; otherwise pop a second operand and the
operator and apply it as binary.  A missing operand is reported as
`operatorWithoutOperand`. -/
def apply_operator (M : LibM) (ctx : Ctx) : Bool × Ctx :=
  match ctx.num_lifo with
  | [] => (false, addErr .operatorWithoutOperand ctx)
  | b :: numRest =>
      let c1 : Ctx := { ctx with num_lifo := numRest }
      match apply_unary_op c1 b with
      | (true, c) => (true, c)
      | (false, _) =>
          match apply_unary_func M c1 b with
          | (true, c) => (true, c)
          | (false, _) =>
              match c1.num_lifo with
              | [] => (false, addErr .operatorWithoutOperand c1)
              | a :: numRest2 =>
                  let c2 : Ctx := { c1 with num_lifo := numRest2 }
                  let (op, c3) := popOp c2
                  let (r, es) := apply_binary_op M a b op
                  (true, pushNum r (addErrs es c3))

/-- The loop of `_process_operators`: drain the operator stack, failing with
`mismatchedParentheses` on an open-parenthesis marker.  Each successful
application pops one operator entry, so fuel `op__lifo.length + 1` (supplied
by `process_operators`) is never exhausted. -/
def process_operators_go (M : LibM) : ℕ → Ctx → Bool × Ctx
  | 0, ctx => (true, ctx)
  | fuel + 1, ctx =>
      match ctx.op__lifo with
      | [] => (true, ctx)
      | top :: _ =>
          if top = '(' then (false, addErr .mismatchedParentheses ctx)
          else
            match apply_operator M ctx with
            | (false, c) => (false, c)
            | (true, c) => process_operators_go M fuel c

/-- `_process_operators` of `gb_calc.c`. -/
def process_operators (M : LibM) (ctx : Ctx) : Bool × Ctx :=
  process_operators_go M (ctx.op__lifo.length + 1) ctx

/-- The reduction loop of `_process_binary`: while the stack top does not
have strictly lower precedence than the incoming operator, pop two operands
and the top operator and push the applied result.  Each iteration pops one
operator entry, so fuel `op__lifo.length + 1` is never exhausted. -/
def binary_reduce_go (M : LibM) (ch : Char) : ℕ → Ctx → Ctx
  | 0, ctx => ctx
  | fuel + 1, ctx =>
      match ctx.op__lifo with
      | [] => ctx
      | top :: rest =>
          if get_precedence top < get_precedence ch then ctx
          else
            let (b, c1) := popNum ctx
            let (a, c2) := popNum c1
            let c3 : Ctx := { c2 with op__lifo := rest }
            let (r, es) := apply_binary_op M a b top
            binary_reduce_go M ch fuel (pushNum r (addErrs es c3))

/-- `_process_binary` of `gb_calc.c`: on a binary-operator character, reduce
by precedence (the strict `>` break makes every operator, `^` included,
left-associative) and push the operator. -/
def process_binary (M : LibM) (ctx : Ctx) : Bool × Ctx :=
  match getCh ctx with
  | none => (false, ctx)
  | some ch =>
      if is_binary_op ch then
        let c1 := binary_reduce_go M ch (ctx.op__lifo.length + 1) ctx
        (true, { pushOp ch c1 with i := c1.i + 1 })
      else (false, ctx)

/-- The search loop of `_process_close_paren`: apply operators until the
stack is empty or an open-parenthesis marker surfaces.  Each successful
application pops one operator entry, so fuel `op__lifo.length + 1` is never
exhausted. -/
def close_paren_go (M : LibM) : ℕ → Ctx → Bool × Ctx
  | 0, ctx => (true, ctx)
  | fuel + 1, ctx =>
      match ctx.op__lifo with
      | [] => (true, ctx)
      | top :: _ =>
          if top = '(' then (true, ctx)
          else
            match apply_operator M ctx with
            | (false, c) => (false, c)
            | (true, c) => close_paren_go M fuel c

/-- `_process_close_paren` of `gb_calc.c`: reduce until the matching `(`;
failing to find one is `mismatchedParentheses`.  After popping the `(` the
code pops the group's value unchecked (the out-of-bounds read of claim C3),
tries the unary and function appliers on it, and on failure restores the
operand stack (`num_top++`). -/
def process_close_paren (M : LibM) (ctx : Ctx) : Bool × Ctx :=
  match getCh ctx with
  | none => (false, ctx)
  | some ch =>
      if ch = ')' then
        match close_paren_go M (ctx.op__lifo.length + 1) ctx with
        | (false, c) => (false, c)
        | (true, c) =>
            match c.op__lifo with
            | '(' :: rest =>
                let c1 : Ctx := { c with op__lifo := rest }
                let saved := c1.num_lifo
                let (num, c2) := popNum c1
                let c3 :=
                  match apply_unary_op c2 num with
                  | (true, cc) => cc
                  | (false, _) =>
                      match apply_unary_func M c2 num with
                      | (true, cc) => cc
                      | (false, _) => { c2 with num_lifo := saved }
                (true, { c3 with i := c3.i + 1 })
            | _ => (false, addErr .mismatchedParentheses c)
      else (false, ctx)

/-- `_process_open_paren` of `gb_calc.c`. -/
def process_open_paren (ctx : Ctx) : Bool × Ctx :=
  match getCh ctx with
  | none => (false, ctx)
  | some ch =>
      if ch = '(' then (true, { pushOp '(' ctx with i := ctx.i + 1 })
      else (false, ctx)

/-- `_process_function` of `gb_calc.c`: longest-match dispatch over the
function table, in source order (`log2` before `log`). -/
def process_function (ctx : Ctx) : Bool × Ctx :=
  if matchAt ctx.expr ctx.i ['s', 'i', 'n'] then
    (true, { pushOp 's' ctx with i := ctx.i + 3 })
  else if matchAt ctx.expr ctx.i ['a', 's', 'i', 'n'] then
    (true, { pushOp 'S' ctx with i := ctx.i + 4 })
  else if matchAt ctx.expr ctx.i ['c', 'o', 's'] then
    (true, { pushOp 'c' ctx with i := ctx.i + 3 })
  else if matchAt ctx.expr ctx.i ['a', 'c', 'o', 's'] then
    (true, { pushOp 'C' ctx with i := ctx.i + 4 })
  else if matchAt ctx.expr ctx.i ['t', 'a', 'n'] then
    (true, { pushOp 't' ctx with i := ctx.i + 3 })
  else if matchAt ctx.expr ctx.i ['a', 't', 'a', 'n'] then
    (true, { pushOp 'T' ctx with i := ctx.i + 4 })
  else if matchAt ctx.expr ctx.i ['s', 'q', 'r', 't'] then
    (true, { pushOp 'q' ctx with i := ctx.i + 4 })
  else if matchAt ctx.expr ctx.i ['e', 'x', 'p'] then
    (true, { pushOp 'e' ctx with i := ctx.i + 3 })
  else if matchAt ctx.expr ctx.i ['l', 'o', 'g', '2'] then
    (true, { pushOp 'L' ctx with i := ctx.i + 4 })
  else if matchAt ctx.expr ctx.i ['l', 'o', 'g'] then
    (true, { pushOp 'l' ctx with i := ctx.i + 3 })
  else (false, ctx)

/-- `_process_number` of `gb_calc.c`: at a digit or `'.'`, parse with
`strtod`, apply a pending unary marker immediately (else push the value),
and advance the cursor by the number of characters consumed — which is zero
when `strtod` converts nothing (claim C1). -/
def process_number (ctx : Ctx) : Bool × Ctx :=
  match getCh ctx with
  | none => (false, ctx)
  | some ch =>
      if isdigitC ch || ch = '.' then
        let (q, k) := strtod (ctx.expr.drop ctx.i)
        let num : Val := .fin q
        let c1 :=
          match apply_unary_op ctx num with
          | (true, c) => c
          | (false, _) => pushNum num ctx
        (true, { c1 with i := c1.i + k })
      else (false, ctx)

/-- `_process_constant` of `gb_calc.c`: the literal `pi`, with the same
immediate unary application as numbers. -/
def process_constant (M : LibM) (ctx : Ctx) : Bool × Ctx :=
  if matchAt ctx.expr ctx.i ['p', 'i'] then
    let c1 :=
      match apply_unary_op ctx (.fin M.pi) with
      | (true, c) => c
      | (false, _) => pushNum (.fin M.pi) ctx
    (true, { c1 with i := c1.i + 2 })
  else (false, ctx)

/-- `_process_unary` of `gb_calc.c`: in unary position, `+` is consumed and
dropped; `!`, `-`, `~` push their biased marker. -/
def process_unary (ctx : Ctx) : Bool × Ctx :=
  match getCh ctx with
  | none => (false, ctx)
  | some ch =>
      if is_unary_op ctx.expr ctx.i then
        if ch = '+' then (true, { ctx with i := ctx.i + 1 })
        else if ch = '!' || ch = '-' || ch = '~' then
          (true, { pushOp (xor128 ch) ctx with i := ctx.i + 1 })
        else (false, ctx)
      else (false, ctx)

/-- `_sanitize_expr` of `gb_calc.c` with its 256-byte destination buffer:
reject NULL and empty input, reject input whose raw length does not fit the
buffer, and strip all whitespace. -/
def sanitize_expr (src : Option (List Char)) (dst_len : ℕ) : Except Err (List Char) :=
  match src with
  | none => .error .emptyOrNullInput
  | some s =>
      if s = [] then .error .emptyOrNullInput
      else if dst_len < s.length + 1 then .error .wrongDestinationBuffer
      else .ok (s.filter (fun c => !isspaceC c))

/-- The scan loop of `gb_calc`: dispatch the current character through the
handlers in source order; if none accepts, the expression is invalid.  The
context threads through failed handlers exactly as the C code mutates it in
place.  `none` means the fuel ran out — the C loop, which has no fuel, would
still be running (claim C1). -/
def gb_loop (M : LibM) : ℕ → Ctx → Option (Bool × Ctx)
  | 0, _ => none
  | fuel + 1, ctx =>
      match getCh ctx with
      | none => some (true, ctx)
      | some _ =>
          let (ok1, c1) := process_unary ctx
          if ok1 then gb_loop M fuel c1 else
          let (ok2, c2) := process_constant M c1
          if ok2 then gb_loop M fuel c2 else
          let (ok3, c3) := process_number c2
          if ok3 then gb_loop M fuel c3 else
          let (ok4, c4) := process_function c3
          if ok4 then gb_loop M fuel c4 else
          let (ok5, c5) := process_open_paren c4
          if ok5 then gb_loop M fuel c5 else
          let (ok6, c6) := process_close_paren M c5
          if ok6 then gb_loop M fuel c6 else
          let (ok7, c7) := process_binary M c6
          if ok7 then gb_loop M fuel c7 else
          some (false, addErr .invalidExpression c7)

/-- The observable outcome of one `gb_calc` call: the returned value, the
diagnostics printed to `stderr` in order, and the ghost out-of-bounds
flags. -/
structure CalcResult where
  value : Val
  errs : List Err
  oobRead : Bool
  oobWrite : Bool
  deriving DecidableEq, Repr

/-- `gb_calc` of `gb_calc.c`: sanitize, scan, drain the operator stack, and
require exactly one operand to remain; every failure path returns the
positive-infinity sentinel.  `none` means the scan loop exceeded the given
fuel (the C loop would still be running). -/
def gb_calc (M : LibM) (fuel : ℕ) (expr : Option (List Char)) : Option CalcResult :=
  match sanitize_expr expr 256 with
  | .error e => some ⟨.inf, [e], false, false⟩
  | .ok dst =>
      match gb_loop M fuel ⟨dst, [], [], 0, [], false, false⟩ with
      | none => none
      | some (false, c) => some ⟨.inf, c.errs, c.oobRead, c.oobWrite⟩
      | some (true, c) =>
          match process_operators M c with
          | (false, c2) => some ⟨.inf, c2.errs ++ [.invalidExpression], c2.oobRead, c2.oobWrite⟩
          | (true, c2) =>
              if c2.num_lifo.length ≠ 1 then
                some ⟨.inf, c2.errs ++ [.invalidExpression], c2.oobRead, c2.oobWrite⟩
              else
                some ⟨c2.num_lifo.headD (.fin 0), c2.errs, c2.oobRead, c2.oobWrite⟩

/-! ### Basic facts about the state helpers -/

@[simp] theorem pushNum_expr (v : Val) (c : Ctx) : (pushNum v c).expr = c.expr := rfl

@[simp] theorem pushNum_op (v : Val) (c : Ctx) : (pushNum v c).op__lifo = c.op__lifo := rfl

@[simp] theorem pushNum_i (v : Val) (c : Ctx) : (pushNum v c).i = c.i := rfl

@[simp] theorem pushNum_errs (v : Val) (c : Ctx) : (pushNum v c).errs = c.errs := rfl

@[simp] theorem pushNum_num (v : Val) (c : Ctx) : (pushNum v c).num_lifo = v :: c.num_lifo := rfl

@[simp] theorem pushOp_expr (x : Char) (c : Ctx) : (pushOp x c).expr = c.expr := rfl

@[simp] theorem pushOp_num (x : Char) (c : Ctx) : (pushOp x c).num_lifo = c.num_lifo := rfl

@[simp] theorem pushOp_i (x : Char) (c : Ctx) : (pushOp x c).i = c.i := rfl

@[simp] theorem pushOp_errs (x : Char) (c : Ctx) : (pushOp x c).errs = c.errs := rfl

@[simp] theorem pushOp_op (x : Char) (c : Ctx) : (pushOp x c).op__lifo = x :: c.op__lifo := rfl

@[simp] theorem addErr_expr (e : Err) (c : Ctx) : (addErr e c).expr = c.expr := rfl

@[simp] theorem addErr_num (e : Err) (c : Ctx) : (addErr e c).num_lifo = c.num_lifo := rfl

@[simp] theorem addErr_op (e : Err) (c : Ctx) : (addErr e c).op__lifo = c.op__lifo := rfl

@[simp] theorem addErr_errs (e : Err) (c : Ctx) : (addErr e c).errs = c.errs ++ [e] := rfl

@[simp] theorem addErrs_errs (es : List Err) (c : Ctx) : (addErrs es c).errs = c.errs ++ es := rfl

@[simp] theorem addErrs_op (es : List Err) (c : Ctx) : (addErrs es c).op__lifo = c.op__lifo := rfl

@[simp] theorem addErrs_num (es : List Err) (c : Ctx) : (addErrs es c).num_lifo = c.num_lifo := rfl

/-! ### Character classification helpers -/

theorem isdigitC_bounds {c : Char} (h : isdigitC c = true) : 48 ≤ c.toNat ∧ c.toNat ≤ 57 := by
  simpa [isdigitC] using h

theorem isdigitC_ne {c d : Char} (h : isdigitC c = true) (hd : isdigitC d = false) : c ≠ d := by
  intro he
  rw [he] at h
  rw [h] at hd
  exact Bool.noConfusion hd

/-! ### Non-termination on `"."` (claim C1) -/

theorem gb_loop_dot (M : LibM) :
    ∀ (fuel : ℕ) (ctx : Ctx), ctx.expr = ['.'] → ctx.i = 0 → ctx.op__lifo = [] →
      gb_loop M fuel ctx = none := by
  intro fuel
  induction fuel with
  | zero => intro ctx _ _ _; rfl
  | succ n ih =>
      intro ctx he hi ho
      obtain ⟨e, ns, os, i, es, r, w⟩ := ctx
      simp only at he hi ho
      subst he hi ho
      have hstep : gb_loop M (n + 1) ⟨['.'], ns, [], 0, es, r, w⟩ =
          gb_loop M n (pushNum (.fin 0) ⟨['.'], ns, [], 0, es, r, w⟩) := by
        with_unfolding_all rfl
      rw [hstep]
      exact ih _ rfl rfl rfl

/-- Claim C1.  The specification promises that evaluation terminates on
every input, and that a position where a number is expected but standard
floating-point parsing consumes zero characters fails with
`InvalidExpression`.  The code instead never advances the cursor there:
on input `"."`, `strtod` converts nothing, `_process_number` still returns
true, and the scan loop re-reads the same character forever (pushing a `0`
each round), so evaluation never returns for any amount of fuel. -/
theorem gb_calc_dot_diverges (M : LibM) (fuel : ℕ) :
    gb_calc M fuel (some ['.']) = none := by
  have hs : sanitize_expr (some ['.']) 256 = .ok ['.'] := rfl
  have hl := gb_loop_dot M fuel ⟨['.'], [], [], 0, [], false, false⟩ rfl rfl rfl
  simp only [gb_calc, hs, hl]

/-! ### Stack capacity (claim C2) and operand-stack underflow (claim C3) -/

/-- Claim C2.  The claim asserts the stacks never exceed their 32-slot
capacity and that an evaluation that would exceed it fails with
`StackOverflow`.  The code has no bounds check: on 33 consecutive `'('`
characters the 33rd push writes `op__lifo[32]`, one past the end of the
32-slot array (the ghost `oobWrite` flag records the out-of-bounds write),
and no `StackOverflow` diagnostic exists anywhere in the code — the
evaluation "fails" only later, with `MismatchedParentheses` at the drain. -/
theorem gb_calc_33_parens_overflows :
    gb_calc M0 40 (some (List.replicate 33 '(')) =
      some ⟨.inf, [.mismatchedParentheses, .invalidExpression], false, true⟩ ∧
    Err.stackOverflow ∉ [Err.mismatchedParentheses, Err.invalidExpression] := by
  constructor
  · with_unfolding_all rfl
  · decide

/-- Claim C3.  The claim asserts no pop ever reads below the bottom of the
operand stack.  `_apply_operator` does check (`OperatorWithoutOperand`),
but `_process_close_paren` pops the group's operand unchecked: on input
`"()"` the operand stack is empty when `)` arrives, and the code reads
`num_lifo[-1]` — the ghost `oobRead` flag records the out-of-bounds read. -/
theorem gb_calc_empty_parens_underflow :
    gb_calc M0 20 (some ['(', ')']) = some ⟨.inf, [.invalidExpression], true, false⟩ := by
  with_unfolding_all rfl

/-! ### Empty and null input (claim C9), oversized input (claim C10) -/

/-- Claim C9.  A NULL expression and an empty expression both fail in
`_sanitize_expr` with the `EmptyOrNullInput` diagnostic (the code's
"Null expression" / "Empty expression" messages, a single emission site),
returning the infinity sentinel before any evaluation; `InvalidExpression`
is not reported, settling the conflict with §6 of the specification. -/
theorem gb_calc_empty_null_input :
    gb_calc M0 20 none = some ⟨.inf, [.emptyOrNullInput], false, false⟩ ∧
    gb_calc M0 20 (some []) = some ⟨.inf, [.emptyOrNullInput], false, false⟩ := by
  constructor
  · with_unfolding_all rfl
  · with_unfolding_all rfl

/-- Claim C10.  Any input whose raw length exceeds 255 characters fails the
`dst_len < strlen(src) + 1` check against the fixed 256-byte sanitization
buffer: `gb_calc` returns the infinity sentinel with only the buffer
diagnostic, before any evaluation, for every such input and any fuel. -/
theorem gb_calc_length_cap (M : LibM) (fuel : ℕ) (s : List Char)
    (h : 255 < s.length) :
    gb_calc M fuel (some s) = some ⟨.inf, [.wrongDestinationBuffer], false, false⟩ := by
  have hne : s ≠ [] := by
    intro h0
    subst h0
    simp at h
  have h2 : (256 : ℕ) < s.length + 1 := by omega
  simp [gb_calc, sanitize_expr, hne, h2]

/-- Witness for claim C10 at a concrete 256-character input. -/
theorem gb_calc_length_cap_witness :
    255 < (List.replicate 256 '1').length ∧
    gb_calc M0 5 (some (List.replicate 256 '1')) =
      some ⟨.inf, [.wrongDestinationBuffer], false, false⟩ :=
  ⟨by decide, gb_calc_length_cap M0 5 (List.replicate 256 '1') (by decide)⟩

/-! ### Error propagation (claim C4) -/

/-- Counterexample to claim C4.  The claim says evaluation stops as soon as
any error occurs, scanning no further input and returning no result
computed from the erroneous value.  On `"!(1/0)"` the division by zero is
reported, yet scanning continues: the infinity sentinel is pushed, the
logical-not is applied to it after the group closes, and the call returns
the finite value `0` — a best-effort result computed from the erroneous
value, not the sentinel. -/
theorem gb_calc_continues_after_div_zero :
    gb_calc M0 20 (some ['!', '(', '1', '/', '0', ')']) =
      some ⟨.fin 0, [.divisionByZero], false, false⟩ ∧
    Val.fin 0 ≠ Val.inf := by
  constructor
  · with_unfolding_all rfl
  · decide

/-- Claim C4, amended.  Structural errors abort the scan at once (on
`"1&1/0"` the invalid `'&'` stops evaluation before the later `"1/0"` is
ever scanned, so no `DivisionByZero` is reported), while the arithmetic
domain errors only emit their diagnostic and substitute the
positive-infinity sentinel for the offending operation's result, after
which evaluation continues. -/
theorem gb_calc_error_propagation (M : LibM) (a num : Val) (e : List Char)
    (ns : List Val) (rest : List Char) (i : ℕ) (es : List Err) (r w : Bool) :
    (apply_binary_op M a (.fin 0) '/' = (.inf, [.divisionByZero])) ∧
    (apply_binary_op M a (.fin 0) '%' = (.inf, [.moduloByZero])) ∧
    (vlt num (.fin 0) = true →
      apply_unary_func M ⟨e, ns, 'q' :: rest, i, es, r, w⟩ num =
        (true, pushNum .inf (addErr .domainError ⟨e, ns, rest, i, es, r, w⟩))) ∧
    (vle num (.fin 0) = true →
      apply_unary_func M ⟨e, ns, 'l' :: rest, i, es, r, w⟩ num =
        (true, pushNum .inf (addErr .domainError ⟨e, ns, rest, i, es, r, w⟩))) ∧
    (vle num (.fin 0) = true →
      apply_unary_func M ⟨e, ns, 'L' :: rest, i, es, r, w⟩ num =
        (true, pushNum .inf (addErr .domainError ⟨e, ns, rest, i, es, r, w⟩))) ∧
    gb_calc M0 20 (some ['1', '&', '1', '/', '0']) =
      some ⟨.inf, [.invalidExpression], false, false⟩ := by
  refine ⟨by with_unfolding_all rfl, by with_unfolding_all rfl, ?_, ?_, ?_,
    by with_unfolding_all rfl⟩
  · intro h
    simp [apply_unary_func, unary_func_val, h, addErrs, addErr]
  · intro h
    simp [apply_unary_func, unary_func_val, h, addErrs, addErr]
  · intro h
    simp [apply_unary_func, unary_func_val, h, addErrs, addErr]

/-- Witness for the amended claim C4: the `sqrt` domain check at the
concrete negative argument `-1`. -/
theorem gb_calc_error_propagation_witness :
    vlt (.fin (-1)) (.fin 0) = true ∧
    apply_unary_func M0 ⟨[], [], ['q'], 0, [], false, false⟩ (.fin (-1)) =
      (true, pushNum .inf (addErr .domainError ⟨[], [], [], 0, [], false, false⟩)) :=
  ⟨by decide,
   (gb_calc_error_propagation M0 (.fin 0) (.fin (-1)) [] [] [] 0 [] false false).2.2.1
     (by decide)⟩

/-! ### Immediate unary application (claim C6) -/

/-- Claim C6.  When a value is produced while the operator-stack top holds
the biased unary-minus marker, `_apply_unary_op` pops the marker and pushes
the negated value at once — before any binary operator can see it; hence
`"-3^2"` evaluates to `(-3)^2 = 9`, not `-(3^2)`. -/
theorem gb_calc_unary_binds_first (e : List Char) (ns : List Val)
    (rest : List Char) (i : ℕ) (es : List Err) (r w : Bool) (num : Val) :
    apply_unary_op ⟨e, ns, xor128 '-' :: rest, i, es, r, w⟩ num =
      (true, pushNum (vneg num) ⟨e, ns, rest, i, es, r, w⟩) ∧
    gb_calc M0 20 (some ['-', '3', '^', '2']) = some ⟨.fin 9, [], false, false⟩ := by
  constructor
  · with_unfolding_all rfl
  · with_unfolding_all rfl

/-! ### Division and modulo semantics (claim C7) -/

/-- Claim C7.  `_apply_binary_op` with a zero divisor reports
`DivisionByZero` for `/` and `ModuloByZero` for `%`, yielding the
positive-infinity sentinel in both cases; with a nonzero divisor `/` is
IEEE division and `%` the floating-point remainder, which on finite
operands are the exact `a / b` and `a - b * trunc(a / b)`. -/
theorem apply_binary_div_mod (M : LibM) (a b : Val) (p q : ℚ) :
    (apply_binary_op M a (.fin 0) '/' = (.inf, [.divisionByZero])) ∧
    (apply_binary_op M a (.fin 0) '%' = (.inf, [.moduloByZero])) ∧
    (b ≠ .fin 0 → apply_binary_op M a b '/' = (vdiv a b, [])) ∧
    (b ≠ .fin 0 → apply_binary_op M a b '%' = (vfmod a b, [])) ∧
    (q ≠ 0 → apply_binary_op M (.fin p) (.fin q) '/' = (.fin (p / q), [])) ∧
    (q ≠ 0 → apply_binary_op M (.fin p) (.fin q) '%' =
      (.fin (p - q * (qtrunc (p / q) : ℚ)), [])) := by
  refine ⟨by with_unfolding_all rfl, by with_unfolding_all rfl, ?_, ?_, ?_, ?_⟩
  · intro h
    simp [apply_binary_op, h]
  · intro h
    simp [apply_binary_op, h]
  · intro h
    have h2 : Val.fin q ≠ Val.fin 0 := by simpa using h
    simp [apply_binary_op, h2, vdiv, h]
  · intro h
    have h2 : Val.fin q ≠ Val.fin 0 := by simpa using h
    simp [apply_binary_op, h2, vfmod, h]

/-- Witness for claim C7: `7 % 2` at the applier level. -/
theorem apply_binary_div_mod_witness :
    ((2 : ℚ) ≠ 0) ∧
    apply_binary_op M0 (.fin 7) (.fin 2) '%' =
      (.fin (7 - 2 * (qtrunc ((7 : ℚ) / 2) : ℚ)), []) :=
  ⟨by decide, (apply_binary_div_mod M0 (.fin 7) (.fin 2) 7 2).2.2.2.2.2 (by decide)⟩

/-! ### Structural facts about the appliers, for the parenthesis claims -/

theorem popNum_errs (c : Ctx) : (popNum c).2.errs = c.errs := by
  cases h : c.num_lifo <;> simp [popNum, h]

theorem popNum_op (c : Ctx) : (popNum c).2.op__lifo = c.op__lifo := by
  cases h : c.num_lifo <;> simp [popNum, h]

theorem popOp_errs (c : Ctx) : (popOp c).2.errs = c.errs := by
  cases h : c.op__lifo <;> simp [popOp, h]

theorem apply_unary_op_spec (ctx : Ctx) (num : Val) (ok : Bool) (c : Ctx)
    (hres : apply_unary_op ctx num = (ok, c)) :
    (ok = false → c = ctx) ∧
    (ok = true → c.op__lifo = ctx.op__lifo.tail) ∧
    c.errs = ctx.errs ∧ c.expr = ctx.expr ∧ c.i = ctx.i := by
  unfold apply_unary_op at hres
  rcases h : ctx.op__lifo with _ | ⟨top, rest⟩ <;> rw [h] at hres <;> dsimp only at hres
  · injection hres with hok hc
    subst hok
    subst hc
    exact ⟨fun _ => rfl, fun ht => Bool.noConfusion ht, rfl, rfl, rfl⟩
  · repeat' split at hres
    all_goals injection hres with hok hc
    all_goals subst hok
    all_goals subst hc
    all_goals refine ⟨fun hf => ?_, fun ht => ?_, ?_, ?_, ?_⟩
    all_goals first
      | exact Bool.noConfusion hf
      | exact Bool.noConfusion ht
      | rfl
      | simp [h]

theorem unary_func_val_errs (M : LibM) (num : Val) (top : Char) (v : Val) (es : List Err)
    (h : unary_func_val M num top = some (v, es)) : es = [] ∨ es = [Err.domainError] := by
  unfold unary_func_val at h
  repeat' split at h
  all_goals first
    | exact Option.noConfusion h
    | (simp only [Option.some.injEq, Prod.mk.injEq] at h
       obtain ⟨hv, he⟩ := h
       subst he
       simp)

theorem apply_unary_func_spec (M : LibM) (ctx : Ctx) (num : Val) (ok : Bool) (c : Ctx)
    (hres : apply_unary_func M ctx num = (ok, c)) :
    (ok = false → c = ctx) ∧
    (ok = true → c.op__lifo = ctx.op__lifo.tail) ∧
    (∀ x ∈ c.errs, x ∈ ctx.errs ∨ x = Err.domainError) ∧
    c.expr = ctx.expr ∧ c.i = ctx.i := by
  unfold apply_unary_func at hres
  rcases h : ctx.op__lifo with _ | ⟨top, rest⟩ <;> rw [h] at hres <;> dsimp only at hres
  · injection hres with hok hc
    subst hok
    subst hc
    exact ⟨fun _ => rfl, fun ht => Bool.noConfusion ht, fun x hx => Or.inl hx, rfl, rfl⟩
  · rcases hv : unary_func_val M num top with _ | ⟨v, es⟩ <;> rw [hv] at hres <;>
      dsimp only at hres
    · injection hres with hok hc
      subst hok
      subst hc
      exact ⟨fun _ => rfl, fun ht => Bool.noConfusion ht, fun x hx => Or.inl hx, rfl, rfl⟩
    · injection hres with hok hc
      subst hok
      subst hc
      refine ⟨fun hf => Bool.noConfusion hf, fun _ => by simp, fun x hx => ?_, rfl, rfl⟩
      simp only [pushNum_errs, addErrs_errs, List.mem_append] at hx
      rcases hx with hx | hx
      · exact Or.inl hx
      · rcases unary_func_val_errs M num top v es hv with he | he <;> subst he
        · simp at hx
        · simp at hx
          exact Or.inr hx

theorem apply_binary_op_errs (M : LibM) (a b : Val) (op : Char) :
    (apply_binary_op M a b op).2 = [] ∨
    (apply_binary_op M a b op).2 = [Err.divisionByZero] ∨
    (apply_binary_op M a b op).2 = [Err.moduloByZero] ∨
    (apply_binary_op M a b op).2 = [Err.unknownOperator] := by
  unfold apply_binary_op
  split_ifs <;> simp

theorem apply_operator_spec (M : LibM) (ctx : Ctx) (ok : Bool) (c : Ctx)
    (hres : apply_operator M ctx = (ok, c)) :
    (ok = true → c.op__lifo = ctx.op__lifo.tail) ∧
    (∀ x ∈ c.errs, x ∈ ctx.errs ∨ x = Err.operatorWithoutOperand ∨ x = Err.domainError ∨
      x = Err.divisionByZero ∨ x = Err.moduloByZero ∨ x = Err.unknownOperator) := by
  unfold apply_operator at hres
  rcases hn : ctx.num_lifo with _ | ⟨b, numRest⟩ <;> rw [hn] at hres <;> dsimp only at hres
  · injection hres with hok hc
    subst hok
    subst hc
    refine ⟨fun ht => Bool.noConfusion ht, fun x hx => ?_⟩
    simp only [addErr_errs, List.mem_append, List.mem_singleton] at hx
    tauto
  · rcases h1 : apply_unary_op { ctx with num_lifo := numRest } b with ⟨ok1, cc1⟩
    rw [h1] at hres
    have s1 := apply_unary_op_spec _ b ok1 cc1 h1
    cases ok1 <;> dsimp only at hres
    · rcases h2 : apply_unary_func M { ctx with num_lifo := numRest } b with ⟨ok2, cc2⟩
      rw [h2] at hres
      have s2 := apply_unary_func_spec M _ b ok2 cc2 h2
      cases ok2 <;> dsimp only at hres
      · rcases hn2 : numRest with _ | ⟨a, numRest2⟩ <;> rw [hn2] at hres <;> dsimp only at hres
        · injection hres with hok hc
          subst hok
          subst hc
          refine ⟨fun ht => Bool.noConfusion ht, fun x hx => ?_⟩
          simp only [addErr_errs, List.mem_append, List.mem_singleton] at hx
          tauto
        · rcases hop : ctx.op__lifo with _ | ⟨t, r⟩ <;>
            simp only [popOp, hop] at hres <;> try dsimp only at hres
          · rcases hab : apply_binary_op M a b (Char.ofNat 0) with ⟨rv, es⟩
            rw [hab] at hres
            dsimp only at hres
            injection hres with hok hc
            subst hok
            subst hc
            refine ⟨fun _ => by simp [hop], fun x hx => ?_⟩
            simp only [pushNum_errs, addErrs_errs, List.mem_append] at hx
            rcases hx with hx | hx
            · exact Or.inl hx
            · rcases apply_binary_op_errs M a b (Char.ofNat 0) with he | he | he | he <;>
                rw [hab] at he <;> simp only at he <;> subst he <;> simp_all <;> tauto
          · rcases hab : apply_binary_op M a b t with ⟨rv, es⟩
            rw [hab] at hres
            dsimp only at hres
            injection hres with hok hc
            subst hok
            subst hc
            refine ⟨fun _ => by simp [hop], fun x hx => ?_⟩
            simp only [pushNum_errs, addErrs_errs, List.mem_append] at hx
            rcases hx with hx | hx
            · exact Or.inl hx
            · rcases apply_binary_op_errs M a b t with he | he | he | he <;>
                rw [hab] at he <;> simp only at he <;> subst he <;> simp_all <;> tauto
      · injection hres with hok hc
        subst hok
        subst hc
        refine ⟨fun _ => ?_, fun x hx => ?_⟩
        · have := s2.2.1 rfl
          simpa using this
        · rcases s2.2.2.1 x hx with hx2 | hx2
          · exact Or.inl hx2
          · tauto
    · injection hres with hok hc
      subst hok
      subst hc
      refine ⟨fun _ => ?_, fun x hx => ?_⟩
      · have := s1.2.1 rfl
        simpa using this
      · have := s1.2.2.1
        rw [this] at hx
        exact Or.inl hx

/-! ### Loop-level facts for the parenthesis claims -/

theorem process_operators_go_no_mp (M : LibM) :
    ∀ (fuel : ℕ) (ctx : Ctx), '(' ∉ ctx.op__lifo →
      Err.mismatchedParentheses ∈ (process_operators_go M fuel ctx).2.errs →
      Err.mismatchedParentheses ∈ ctx.errs := by
  intro fuel
  induction fuel with
  | zero => intro ctx _ hx; exact hx
  | succ n ih =>
      intro ctx hin hx
      rw [process_operators_go] at hx
      rcases hop : ctx.op__lifo with _ | ⟨top, rest⟩ <;> rw [hop] at hx <;> dsimp only at hx
      · exact hx
      · have hne : top ≠ '(' := by
          intro he
          exact hin (hop ▸ (he ▸ List.mem_cons_self top rest))
        rw [if_neg hne] at hx
        rcases h : apply_operator M ctx with ⟨ok, c⟩
        rw [h] at hx
        have s := apply_operator_spec M ctx ok c h
        cases ok <;> dsimp only at hx
        · rcases s.2 _ hx with h2 | h2 | h2 | h2 | h2 | h2 <;> first
            | exact h2
            | exact absurd h2 (by intro hq; cases hq)
        · have hin2 : '(' ∉ c.op__lifo := by
            rw [s.1 rfl, hop]
            intro hmem
            exact hin (hop ▸ List.mem_cons_of_mem top hmem)
          have := ih c hin2 hx
          rcases s.2 _ this with h2 | h2 | h2 | h2 | h2 | h2 <;> first
            | exact h2
            | exact absurd h2 (by intro hq; cases hq)

theorem process_operators_go_paren_fails (M : LibM) :
    ∀ (fuel : ℕ) (ctx : Ctx), ctx.op__lifo.length ≤ fuel → '(' ∈ ctx.op__lifo →
      (process_operators_go M fuel ctx).1 = false := by
  intro fuel
  induction fuel with
  | zero =>
      intro ctx hlen hin
      rcases hop : ctx.op__lifo with _ | ⟨top, rest⟩
      · rw [hop] at hin; cases hin
      · rw [hop] at hlen; simp at hlen
  | succ n ih =>
      intro ctx hlen hin
      rw [process_operators_go]
      rcases hop : ctx.op__lifo with _ | ⟨top, rest⟩ <;> dsimp only
      · rw [hop] at hin; cases hin
      · by_cases he : top = '('
        · rw [if_pos he]
        · rw [if_neg he]
          rcases h : apply_operator M ctx with ⟨ok, c⟩
          have s := apply_operator_spec M ctx ok c h
          cases ok <;> dsimp only <;> try rfl
          apply ih c
          · rw [s.1 rfl, hop]
            rw [hop] at hlen
            simp at hlen ⊢
            omega
          · rw [s.1 rfl, hop]
            rw [hop] at hin
            rcases List.mem_cons.mp hin with h2 | h2
            · exact absurd h2.symm he
            · exact h2

theorem close_paren_go_no_mp (M : LibM) :
    ∀ (fuel : ℕ) (ctx : Ctx),
      Err.mismatchedParentheses ∈ (close_paren_go M fuel ctx).2.errs →
      Err.mismatchedParentheses ∈ ctx.errs := by
  intro fuel
  induction fuel with
  | zero => intro ctx hx; exact hx
  | succ n ih =>
      intro ctx hx
      rw [close_paren_go] at hx
      rcases hop : ctx.op__lifo with _ | ⟨top, rest⟩ <;> rw [hop] at hx <;> dsimp only at hx
      · exact hx
      · by_cases he : top = '('
        · rw [if_pos he] at hx; exact hx
        · rw [if_neg he] at hx
          rcases h : apply_operator M ctx with ⟨ok, c⟩
          rw [h] at hx
          have s := apply_operator_spec M ctx ok c h
          cases ok <;> dsimp only at hx
          · rcases s.2 _ hx with h2 | h2 | h2 | h2 | h2 | h2 <;> first
              | exact h2
              | exact absurd h2 (by intro hq; cases hq)
          · have := ih c hx
            rcases s.2 _ this with h2 | h2 | h2 | h2 | h2 | h2 <;> first
              | exact h2
              | exact absurd h2 (by intro hq; cases hq)

theorem close_paren_go_paren_found (M : LibM) :
    ∀ (fuel : ℕ) (ctx : Ctx), ctx.op__lifo.length ≤ fuel → '(' ∈ ctx.op__lifo →
      (close_paren_go M fuel ctx).1 = true →
      ∃ rest, (close_paren_go M fuel ctx).2.op__lifo = '(' :: rest := by
  intro fuel
  induction fuel with
  | zero =>
      intro ctx hlen hin _
      rcases hop : ctx.op__lifo with _ | ⟨top, rest⟩
      · rw [hop] at hin; cases hin
      · rw [hop] at hlen; simp at hlen
  | succ n ih =>
      intro ctx hlen hin htrue
      rw [close_paren_go] at htrue ⊢
      rcases hop : ctx.op__lifo with _ | ⟨top, rest⟩ <;> rw [hop] at htrue <;>
        dsimp only at htrue ⊢
      · rw [hop] at hin; cases hin
      · by_cases he : top = '('
        · rw [if_pos he] at htrue ⊢
          exact ⟨rest, by rw [hop, he]⟩
        · rw [if_neg he] at htrue ⊢
          rcases h : apply_operator M ctx with ⟨ok, c⟩
          rw [h] at htrue
          have s := apply_operator_spec M ctx ok c h
          cases ok <;> dsimp only at htrue ⊢
          · exact Bool.noConfusion htrue
          · apply ih c
            · rw [s.1 rfl, hop]
              rw [hop] at hlen
              simp at hlen ⊢
              omega
            · rw [s.1 rfl, hop]
              rw [hop] at hin
              rcases List.mem_cons.mp hin with h2 | h2
              · exact absurd h2.symm he
              · exact h2
            · exact htrue

theorem process_close_paren_mp (M : LibM) (ctx : Ctx) (ok : Bool) (c : Ctx)
    (hres : process_close_paren M ctx = (ok, c)) (hin : '(' ∈ ctx.op__lifo) :
    Err.mismatchedParentheses ∈ c.errs → Err.mismatchedParentheses ∈ ctx.errs := by
  intro hx
  unfold process_close_paren at hres
  rcases hch : getCh ctx with _ | ch <;> rw [hch] at hres <;> dsimp only at hres
  · injection hres with hh1 hh2
    subst hh2
    exact hx
  · by_cases hcp : ch = ')'
    · rw [if_pos hcp] at hres
      rcases hgo : close_paren_go M (ctx.op__lifo.length + 1) ctx with ⟨okg, c1⟩
      rw [hgo] at hres
      have hnomp : Err.mismatchedParentheses ∈ c1.errs →
          Err.mismatchedParentheses ∈ ctx.errs := by
        intro hq
        exact close_paren_go_no_mp M (ctx.op__lifo.length + 1) ctx (by rw [hgo]; exact hq)
      cases okg <;> dsimp only at hres
      · injection hres with hh1 hh2
        subst hh2
        exact hnomp hx
      · obtain ⟨rest, hrest⟩ :=
          close_paren_go_paren_found M (ctx.op__lifo.length + 1) ctx
            (Nat.le_succ _) hin (by rw [hgo])
        rw [hgo] at hrest
        rw [hrest] at hres
        split at hres
        rotate_left
        rename_i hne
        exact absurd rfl (hne rest)
        rename_i rest2 heq
        injection heq with heq1 heq2
        subst heq2
        rcases hpop : popNum { c1 with op__lifo := rest } with ⟨num, c2⟩
        rw [hpop] at hres
        try dsimp only at hres
        have hc2errs : c2.errs = c1.errs := by
          have := popNum_errs { c1 with op__lifo := rest }
          rw [hpop] at this
          exact this
        rcases h1 : apply_unary_op c2 num with ⟨ok1, cc1⟩
        rw [h1] at hres
        have s1 := apply_unary_op_spec c2 num ok1 cc1 h1
        cases ok1 <;> dsimp only at hres
        · rcases h2 : apply_unary_func M c2 num with ⟨ok2, cc2⟩
          rw [h2] at hres
          have s2 := apply_unary_func_spec M c2 num ok2 cc2 h2
          cases ok2 <;> dsimp only at hres
          · injection hres with hh1 hh2
            subst hh2
            dsimp only at hx
            rw [hc2errs] at hx
            exact hnomp hx
          · injection hres with hh1 hh2
            subst hh2
            dsimp only at hx
            rcases s2.2.2.1 _ hx with h3 | h3
            · rw [hc2errs] at h3
              exact hnomp h3
            · exact absurd h3 (by intro hq; cases hq)
        · injection hres with hh1 hh2
          subst hh2
          dsimp only at hx
          rw [s1.2.2.1, hc2errs] at hx
          exact hnomp hx
    · rw [if_neg hcp] at hres
      injection hres with hh1 hh2
      subst hh2
      exact hx

/-! ### Mismatched parentheses (claim C8) -/

/-- Claim C8.  `MismatchedParentheses` is reported exactly at the two
places the claim names: on a close-parenthesis arrival, when reducing
empties the operator stack without finding the `(` marker, and at end of
input, when a `(` marker remains on the operator stack while draining (any
`(` on the stack makes the drain fail).  Conversely, the drain never
reports it when no `(` is on the stack, and a close-parenthesis arrival
never reports it when a `(` is on the stack.  In particular
`evaluate("(1+2")` fails with `MismatchedParentheses`. -/
theorem gb_calc_mismatched_parens (M : LibM) (ctx : Ctx) (c1 : Ctx) (t : List Char)
    (ok : Bool) (c : Ctx) :
    (gb_calc M0 20 (some ['(', '1', '+', '2']) =
      some ⟨.inf, [.mismatchedParentheses, .invalidExpression], false, false⟩) ∧
    (getCh ctx = some ')' → close_paren_go M (ctx.op__lifo.length + 1) ctx = (true, c1) →
      c1.op__lifo = [] →
      process_close_paren M ctx = (false, addErr .mismatchedParentheses c1)) ∧
    (ctx.op__lifo = '(' :: t →
      process_operators M ctx = (false, addErr .mismatchedParentheses ctx)) ∧
    ('(' ∈ ctx.op__lifo → (process_operators M ctx).1 = false) ∧
    ('(' ∉ ctx.op__lifo → Err.mismatchedParentheses ∈ (process_operators M ctx).2.errs →
      Err.mismatchedParentheses ∈ ctx.errs) ∧
    (process_close_paren M ctx = (ok, c) → '(' ∈ ctx.op__lifo →
      Err.mismatchedParentheses ∈ c.errs → Err.mismatchedParentheses ∈ ctx.errs) := by
  refine ⟨by with_unfolding_all rfl, ?_, ?_, ?_, ?_, ?_⟩
  · intro hch hgo hop
    unfold process_close_paren
    rw [hch]
    dsimp only
    rw [if_pos rfl, hgo]
    dsimp only
    rw [hop]
  · intro h
    rw [process_operators, h]
    rw [process_operators_go, h]
    dsimp only
    rw [if_pos rfl]
  · intro hin
    exact process_operators_go_paren_fails M _ ctx (Nat.le_succ _) hin
  · intro hnin hx
    exact process_operators_go_no_mp M _ ctx hnin hx
  · intro hres hin hx
    exact process_close_paren_mp M ctx ok c hres hin hx

/-- Witness for claim C8: the end-of-input drain at a concrete state whose
operator stack top is the `(` marker. -/
theorem gb_calc_mismatched_parens_witness :
    (⟨[], [], ['('], 0, [], false, false⟩ : Ctx).op__lifo = '(' :: [] ∧
    process_operators M0 ⟨[], [], ['('], 0, [], false, false⟩ =
      (false, addErr .mismatchedParentheses ⟨[], [], ['('], 0, [], false, false⟩) :=
  ⟨rfl,
   (gb_calc_mismatched_parens M0 ⟨[], [], ['('], 0, [], false, false⟩
     ⟨[], [], [], 0, [], false, false⟩ [] false
     ⟨[], [], [], 0, [], false, false⟩).2.2.1 rfl⟩

/-! ### Tokenizer and scan-step lemmas for the precedence claim -/

theorem process_unary_not_trigger (ctx : Ctx) (ch : Char) (hch : getCh ctx = some ch)
    (h1 : ch ≠ '+') (h2 : ch ≠ '!') (h3 : ch ≠ '-') (h4 : ch ≠ '~') :
    process_unary ctx = (false, ctx) := by
  unfold process_unary
  rw [hch]
  dsimp only
  cases hu : is_unary_op ctx.expr ctx.i <;> simp [h1, h2, h3, h4]

theorem matchAt_false_of_head (expr : List Char) (i : ℕ) (c p : Char) (t ps : List Char)
    (hdrop : expr.drop i = c :: t) (hne : c ≠ p) : matchAt expr i (p :: ps) = false := by
  simp [matchAt, hdrop, List.take_succ_cons, hne]

theorem process_number_none (ctx : Ctx) (ch : Char) (hch : getCh ctx = some ch)
    (h1 : isdigitC ch = false) (h2 : ch ≠ '.') : process_number ctx = (false, ctx) := by
  unfold process_number
  rw [hch]
  dsimp only
  simp [h1, h2]

theorem process_open_paren_none (ctx : Ctx) (ch : Char) (hch : getCh ctx = some ch) (h : ch ≠ '(') :
    process_open_paren ctx = (false, ctx) := by
  unfold process_open_paren
  rw [hch]
  simp [h]

theorem process_close_paren_none (M : LibM) (ctx : Ctx) (ch : Char) (hch : getCh ctx = some ch)
    (h : ch ≠ ')') : process_close_paren M ctx = (false, ctx) := by
  unfold process_close_paren
  rw [hch]
  simp [h]

theorem apply_unary_op_caret (ctx : Ctx) (t' : List Char) (v : Val)
    (h : ctx.op__lifo = '^' :: t') : apply_unary_op ctx v = (false, ctx) := by
  unfold apply_unary_op
  rw [h]
  dsimp only
  rw [if_neg (by decide), if_neg (by decide), if_neg (by decide)]

theorem takeWhile_all_append (p : Char → Bool) (ds rest : List Char)
    (hds : ∀ c ∈ ds, p c = true)
    (hrest : rest = [] ∨ ∃ c t, rest = c :: t ∧ p c = false) :
    (ds ++ rest).takeWhile p = ds := by
  induction ds with
  | nil =>
      rcases hrest with h | ⟨c, t, rfl, hc⟩
      · subst h; rfl
      · simp [List.takeWhile_cons, hc]
  | cons d ds ih =>
      have hd : p d = true := hds d (List.mem_cons_self d ds)
      simp [List.takeWhile_cons, hd, ih (fun c hc => hds c (List.mem_cons_of_mem d hc))]

theorem takeWhile_all (p : Char → Bool) (ds : List Char) (hds : ∀ c ∈ ds, p c = true) :
    ds.takeWhile p = ds := by
  have := takeWhile_all_append p ds [] hds (Or.inl rfl)
  simpa using this

theorem strtod_digits_nil (ds : List Char) (hne : ds ≠ [])
    (hds : ∀ c ∈ ds, isdigitC c = true) :
    strtod ds = ((digitsVal ds : ℚ), ds.length) := by
  have htw : ds.takeWhile isdigitC = ds := takeWhile_all _ _ hds
  have hn : (none : Option Char) ≠ some '.' := by decide
  simp only [strtod, htw, List.drop_length, List.head?_nil]
  norm_num [hne, hn, List.length_eq_zero, digitsVal]

theorem strtod_digits_caret (ds R : List Char) (hne : ds ≠ [])
    (hds : ∀ c ∈ ds, isdigitC c = true) :
    strtod (ds ++ '^' :: R) = ((digitsVal ds : ℚ), ds.length) := by
  have htw : (ds ++ '^' :: R).takeWhile isdigitC = ds :=
    takeWhile_all_append _ _ _ hds (Or.inr ⟨'^', R, rfl, by decide⟩)
  have hd2 : (ds ++ '^' :: R).drop ds.length = '^' :: R := List.drop_left ds ('^' :: R)
  have h1 : ('^' : Char) ≠ '.' := by decide
  have h2 : ('^' : Char) ≠ 'e' := by decide
  have h3 : ('^' : Char) ≠ 'E' := by decide
  simp only [strtod, htw, hd2, List.head?_cons, Option.some.injEq]
  norm_num [hne, h1, h2, h3, List.length_eq_zero, digitsVal]

theorem apply_unary_op_nil (ctx : Ctx) (v : Val) (h : ctx.op__lifo = []) :
    apply_unary_op ctx v = (false, ctx) := by
  unfold apply_unary_op
  rw [h]

theorem gb_loop_end_step (M : LibM) (f : ℕ) (ctx : Ctx) (h : getCh ctx = none) :
    gb_loop M (f + 1) ctx = some (true, ctx) := by
  simp only [gb_loop, h]

theorem gb_loop_dispatch_number (M : LibM) (f : ℕ) (ctx ctx' : Ctx) (ch : Char)
    (hch : getCh ctx = some ch)
    (h1 : process_unary ctx = (false, ctx))
    (h2 : process_constant M ctx = (false, ctx))
    (h3 : process_number ctx = (true, ctx')) :
    gb_loop M (f + 1) ctx = gb_loop M f ctx' := by
  rw [gb_loop, hch]
  dsimp only
  rw [h1]
  dsimp only
  rw [h2]
  dsimp only
  rw [h3]
  simp

theorem gb_loop_dispatch_binary (M : LibM) (f : ℕ) (ctx ctx' : Ctx) (ch : Char)
    (hch : getCh ctx = some ch)
    (h1 : process_unary ctx = (false, ctx))
    (h2 : process_constant M ctx = (false, ctx))
    (h3 : process_number ctx = (false, ctx))
    (h4 : process_function ctx = (false, ctx))
    (h5 : process_open_paren ctx = (false, ctx))
    (h6 : process_close_paren M ctx = (false, ctx))
    (h7 : process_binary M ctx = (true, ctx')) :
    gb_loop M (f + 1) ctx = gb_loop M f ctx' := by
  rw [gb_loop, hch]
  dsimp only
  rw [h1]
  dsimp only
  rw [h2]
  dsimp only
  rw [h3]
  dsimp only
  rw [h4]
  dsimp only
  rw [h5]
  dsimp only
  rw [h6]
  dsimp only
  rw [h7]
  simp

theorem process_function_none (ctx : Ctx) (c : Char) (t : List Char)
    (hdrop : ctx.expr.drop ctx.i = c :: t)
    (hs : c ≠ 's') (ha : c ≠ 'a') (hc : c ≠ 'c') (ht : c ≠ 't') (he : c ≠ 'e') (hl : c ≠ 'l') :
    process_function ctx = (false, ctx) := by
  unfold process_function
  rw [matchAt_false_of_head _ _ _ _ _ _ hdrop hs,
      matchAt_false_of_head _ _ _ _ _ _ hdrop ha,
      matchAt_false_of_head _ _ _ _ _ _ hdrop hc,
      matchAt_false_of_head _ _ _ _ _ _ hdrop ha,
      matchAt_false_of_head _ _ _ _ _ _ hdrop ht,
      matchAt_false_of_head _ _ _ _ _ _ hdrop ha,
      matchAt_false_of_head _ _ _ _ _ _ hdrop hs,
      matchAt_false_of_head _ _ _ _ _ _ hdrop he,
      matchAt_false_of_head _ _ _ _ _ _ hdrop hl,
      matchAt_false_of_head _ _ _ _ _ _ hdrop hl]
  simp

theorem process_constant_none (M : LibM) (ctx : Ctx) (c : Char) (t : List Char)
    (hdrop : ctx.expr.drop ctx.i = c :: t) (hp : c ≠ 'p') :
    process_constant M ctx = (false, ctx) := by
  unfold process_constant
  rw [matchAt_false_of_head _ _ _ _ _ _ hdrop hp]
  simp

theorem process_number_run (ctx : Ctx) (ds rest : List Char)
    (hdrop : ctx.expr.drop ctx.i = ds ++ rest) (hne : ds ≠ [])
    (hds : ∀ c ∈ ds, isdigitC c = true)
    (hrest : rest = [] ∨ ∃ R, rest = '^' :: R)
    (hop : ctx.op__lifo = [] ∨ ∃ t', ctx.op__lifo = '^' :: t') :
    process_number ctx =
      (true, { pushNum (.fin (digitsVal ds)) ctx with i := ctx.i + ds.length }) := by
  rcases ds with _ | ⟨d, ds'⟩
  · exact absurd rfl hne
  · have hd : isdigitC d = true := hds d (List.mem_cons_self d ds')
    have hch : getCh ctx = some d := by
      rw [getCh, hdrop]
      rfl
    have hstrtod : strtod (ctx.expr.drop ctx.i) = ((digitsVal (d :: ds') : ℚ), (d :: ds').length) := by
      rw [hdrop]
      rcases hrest with hr | ⟨R, hr⟩ <;> subst hr
      · rw [List.append_nil]
        exact strtod_digits_nil _ hne hds
      · exact strtod_digits_caret _ _ hne hds
    have hau : apply_unary_op ctx (Val.fin (digitsVal (d :: ds'))) = (false, ctx) := by
      rcases hop with ho | ⟨t', ho⟩
      · exact apply_unary_op_nil ctx _ ho
      · exact apply_unary_op_caret ctx t' _ ho
    unfold process_number
    rw [hch]
    dsimp only
    rw [if_pos (by simp [hd])]
    rw [hstrtod]
    dsimp only
    rw [hau]
    simp

theorem gb_loop_digit_run_step (M : LibM) (f : ℕ) (ctx : Ctx) (ds rest : List Char)
    (hdrop : ctx.expr.drop ctx.i = ds ++ rest) (hne : ds ≠ [])
    (hds : ∀ c ∈ ds, isdigitC c = true)
    (hrest : rest = [] ∨ ∃ R, rest = '^' :: R)
    (hop : ctx.op__lifo = [] ∨ ∃ t', ctx.op__lifo = '^' :: t') :
    gb_loop M (f + 1) ctx =
      gb_loop M f { pushNum (.fin (digitsVal ds)) ctx with i := ctx.i + ds.length } := by
  rcases ds with _ | ⟨d, ds'⟩
  · exact absurd rfl hne
  · have hd : isdigitC d = true := hds d (List.mem_cons_self d ds')
    have hch : getCh ctx = some d := by
      rw [getCh, hdrop]
      rfl
    have hdropc : ctx.expr.drop ctx.i = d :: (ds' ++ rest) := by rw [hdrop]; rfl
    exact gb_loop_dispatch_number M f ctx _ d hch
      (process_unary_not_trigger ctx d hch
        (isdigitC_ne hd (by decide)) (isdigitC_ne hd (by decide))
        (isdigitC_ne hd (by decide)) (isdigitC_ne hd (by decide)))
      (process_constant_none M ctx d _ hdropc (isdigitC_ne hd (by decide)))
      (process_number_run ctx _ rest hdrop hne hds hrest hop)

theorem t_process_binary_caret_nilop (M : LibM) (ctx : Ctx) (R : List Char)
    (hdrop : ctx.expr.drop ctx.i = '^' :: R) (hop : ctx.op__lifo = []) :
    process_binary M ctx = (true, { pushOp '^' ctx with i := ctx.i + 1 }) := by
  have hch : getCh ctx = some '^' := by rw [getCh, hdrop]; rfl
  have hred : binary_reduce_go M '^' (ctx.op__lifo.length + 1) ctx = ctx := by
    simp only [hop, List.length_nil]
    rw [binary_reduce_go, hop]
  unfold process_binary
  rw [hch]
  dsimp only
  rw [if_pos (by decide : is_binary_op '^' = true)]
  rw [hred]

theorem apply_binary_op_caret (M : LibM) (a b : Val) :
    apply_binary_op M a b '^' = (vpow M a b, []) := by
  with_unfolding_all rfl

theorem t_process_binary_caret_reduce (M : LibM) (ctx : Ctx) (R : List Char) (b a : Val)
    (hdrop : ctx.expr.drop ctx.i = '^' :: R) (hop : ctx.op__lifo = ['^'])
    (hnum : ctx.num_lifo = [b, a]) :
    process_binary M ctx =
      (true, ⟨ctx.expr, [vpow M a b], ['^'], ctx.i + 1, ctx.errs, ctx.oobRead, ctx.oobWrite⟩) := by
  have hch : getCh ctx = some '^' := by rw [getCh, hdrop]; rfl
  have hred : binary_reduce_go M '^' (ctx.op__lifo.length + 1) ctx =
      ⟨ctx.expr, [vpow M a b], [], ctx.i, ctx.errs, ctx.oobRead, ctx.oobWrite⟩ := by
    simp only [hop, List.length_cons, List.length_nil]
    rw [binary_reduce_go, hop]
    dsimp only
    rw [if_neg (by decide)]
    simp only [popNum, hnum]
    try dsimp only
    rw [apply_binary_op_caret]
    try dsimp only
    rw [binary_reduce_go]
    simp [pushNum, addErrs]
  unfold process_binary
  rw [hch]
  dsimp only
  rw [if_pos (by decide : is_binary_op '^' = true)]
  rw [hred]
  simp [pushOp]

theorem apply_unary_func_caret (M : LibM) (ctx : Ctx) (t' : List Char) (v : Val)
    (h : ctx.op__lifo = '^' :: t') : apply_unary_func M ctx v = (false, ctx) := by
  unfold apply_unary_func
  rw [h]
  dsimp only
  rw [show unary_func_val M v '^' = none from rfl]

theorem gb_loop_caret_push_step (M : LibM) (f : ℕ) (ctx : Ctx) (R : List Char)
    (hdrop : ctx.expr.drop ctx.i = '^' :: R) (hop : ctx.op__lifo = []) :
    gb_loop M (f + 1) ctx = gb_loop M f { pushOp '^' ctx with i := ctx.i + 1 } := by
  have hch : getCh ctx = some '^' := by rw [getCh, hdrop]; rfl
  exact gb_loop_dispatch_binary M f ctx _ '^' hch
    (process_unary_not_trigger ctx '^' hch (by decide) (by decide) (by decide) (by decide))
    (process_constant_none M ctx '^' R hdrop (by decide))
    (process_number_none ctx '^' hch (by decide) (by decide))
    (process_function_none ctx '^' R hdrop (by decide) (by decide) (by decide) (by decide)
      (by decide) (by decide))
    (process_open_paren_none ctx '^' hch (by decide))
    (process_close_paren_none M ctx '^' hch (by decide))
    (t_process_binary_caret_nilop M ctx R hdrop hop)

theorem gb_loop_caret_reduce_step (M : LibM) (f : ℕ) (ctx : Ctx) (R : List Char) (b a : Val)
    (hdrop : ctx.expr.drop ctx.i = '^' :: R) (hop : ctx.op__lifo = ['^'])
    (hnum : ctx.num_lifo = [b, a]) :
    gb_loop M (f + 1) ctx =
      gb_loop M f ⟨ctx.expr, [vpow M a b], ['^'], ctx.i + 1, ctx.errs, ctx.oobRead, ctx.oobWrite⟩ := by
  have hch : getCh ctx = some '^' := by rw [getCh, hdrop]; rfl
  exact gb_loop_dispatch_binary M f ctx _ '^' hch
    (process_unary_not_trigger ctx '^' hch (by decide) (by decide) (by decide) (by decide))
    (process_constant_none M ctx '^' R hdrop (by decide))
    (process_number_none ctx '^' hch (by decide) (by decide))
    (process_function_none ctx '^' R hdrop (by decide) (by decide) (by decide) (by decide)
      (by decide) (by decide))
    (process_open_paren_none ctx '^' hch (by decide))
    (process_close_paren_none M ctx '^' hch (by decide))
    (t_process_binary_caret_reduce M ctx R b a hdrop hop hnum)

theorem process_operators_caret_drain (M : LibM) (e : List Char) (b a : Val) (i : ℕ) (r w : Bool) :
    process_operators M ⟨e, [b, a], ['^'], i, [], r, w⟩ =
      (true, ⟨e, [vpow M a b], [], i, [], r, w⟩) := by
  with_unfolding_all rfl

theorem vpow_natCast (M : LibM) (x : ℚ) (n : ℕ) :
    vpow M (.fin x) (.fin (n : ℚ)) = .fin (x ^ n) := by
  simp [vpow, Rat.den_natCast, Rat.num_natCast, Int.natCast_nonneg, Int.toNat_natCast]

theorem isdigit_not_space {c : Char} (h : isdigitC c = true) : isspaceC c = false := by
  rcases isdigitC_bounds h with ⟨h1, h2⟩
  simp [isspaceC]
  omega

theorem gb_calc_caret_chain (M : LibM) (as bs cs : List Char)
    (ha : as ≠ []) (hb : bs ≠ []) (hc : cs ≠ [])
    (hda : ∀ c ∈ as, isdigitC c = true) (hdb : ∀ c ∈ bs, isdigitC c = true)
    (hdc : ∀ c ∈ cs, isdigitC c = true)
    (hlen : as.length + bs.length + cs.length + 2 ≤ 255) :
    gb_calc M (as.length + bs.length + cs.length + 6)
      (some (as ++ '^' :: (bs ++ '^' :: cs))) =
      some ⟨.fin (((digitsVal as : ℚ) ^ digitsVal bs) ^ digitsVal cs), [], false, false⟩ := by
  set E : List Char := as ++ '^' :: (bs ++ '^' :: cs) with hE
  set L : ℕ := as.length + bs.length + cs.length with hL
  have hspace : ∀ c ∈ E, isspaceC c = false := by
    intro c hcE
    rw [hE] at hcE
    rcases List.mem_append.mp hcE with h | h
    · exact isdigit_not_space (hda c h)
    · rcases List.mem_cons.mp h with h | h
      · subst h; decide
      · rcases List.mem_append.mp h with h | h
        · exact isdigit_not_space (hdb c h)
        · rcases List.mem_cons.mp h with h | h
          · subst h; decide
          · exact isdigit_not_space (hdc c h)
  have hElen : E.length = L + 2 := by
    rw [hE, hL]
    simp [List.length_append]
    omega
  have hsan : sanitize_expr (some E) 256 = .ok E := by
    have hEne : E ≠ [] := by
      rw [hE]
      rcases as with _ | ⟨x, xs⟩
      · simp
      · simp
    unfold sanitize_expr
    dsimp only
    rw [if_neg hEne, if_neg (by rw [hElen]; omega)]
    congr 1
    rw [List.filter_eq_self]
    intro c hcE
    simp [hspace c hcE]
  have hd0 : E.drop 0 = as ++ ('^' :: (bs ++ '^' :: cs)) := by
    rw [List.drop_zero]
  have s1 := gb_loop_digit_run_step M (L + 5) ⟨E, [], [], 0, [], false, false⟩ as _ hd0 ha hda
    (Or.inr ⟨bs ++ '^' :: cs, rfl⟩) (Or.inl rfl)
  have e1 : ({ pushNum (.fin (digitsVal as)) ⟨E, [], [], 0, [], false, false⟩ with
      i := 0 + as.length } : Ctx) =
      ⟨E, [.fin (digitsVal as)], [], as.length, [], false, false⟩ := by
    simp [pushNum]
  have hd1 : E.drop as.length = '^' :: (bs ++ '^' :: cs) := by
    rw [hE]
    exact List.drop_left as _
  have s2 := gb_loop_caret_push_step M (L + 4) ⟨E, [.fin (digitsVal as)], [], as.length, [], false, false⟩
    (bs ++ '^' :: cs) hd1 rfl
  have e2 : ({ pushOp '^' ⟨E, [.fin (digitsVal as)], [], as.length, [], false, false⟩ with
      i := as.length + 1 } : Ctx) =
      ⟨E, [.fin (digitsVal as)], ['^'], as.length + 1, [], false, false⟩ := by
    simp [pushOp]
  have hd2 : E.drop (as.length + 1) = bs ++ '^' :: cs := by
    have h1 : E.drop (as.length + 1) = (E.drop as.length).drop 1 := by
      rw [List.drop_drop]
    rw [h1, hd1] <;> simp
  have s3 := gb_loop_digit_run_step M (L + 3)
    ⟨E, [.fin (digitsVal as)], ['^'], as.length + 1, [], false, false⟩ bs _ hd2 hb hdb
    (Or.inr ⟨cs, rfl⟩) (Or.inr ⟨[], rfl⟩)
  have e3 : ({ pushNum (.fin (digitsVal bs))
      ⟨E, [.fin (digitsVal as)], ['^'], as.length + 1, [], false, false⟩ with
      i := as.length + 1 + bs.length } : Ctx) =
      ⟨E, [.fin (digitsVal bs), .fin (digitsVal as)], ['^'], as.length + 1 + bs.length, [],
        false, false⟩ := by
    simp [pushNum]
  have hd3 : E.drop (as.length + 1 + bs.length) = '^' :: cs := by
    have h1 : E.drop (as.length + 1 + bs.length) = (E.drop (as.length + 1)).drop bs.length := by
      rw [List.drop_drop]
    rw [h1, hd2]
    exact List.drop_left bs _
  have s4 := gb_loop_caret_reduce_step M (L + 2)
    ⟨E, [.fin (digitsVal bs), .fin (digitsVal as)], ['^'], as.length + 1 + bs.length, [],
      false, false⟩ cs (.fin (digitsVal bs)) (.fin (digitsVal as)) hd3 rfl rfl
  have hd4 : E.drop (as.length + 1 + bs.length + 1) = cs := by
    have h1 : E.drop (as.length + 1 + bs.length + 1) =
        (E.drop (as.length + 1 + bs.length)).drop 1 := by
      rw [List.drop_drop]
    rw [h1, hd3] <;> simp
  have s5 := gb_loop_digit_run_step M (L + 1)
    ⟨E, [vpow M (.fin (digitsVal as)) (.fin (digitsVal bs))], ['^'],
      as.length + 1 + bs.length + 1, [], false, false⟩ cs [] (by rw [List.append_nil]; exact hd4)
    hc hdc (Or.inl rfl) (Or.inr ⟨[], rfl⟩)
  have e5 : ({ pushNum (.fin (digitsVal cs))
      ⟨E, [vpow M (.fin (digitsVal as)) (.fin (digitsVal bs))], ['^'],
        as.length + 1 + bs.length + 1, [], false, false⟩ with
      i := as.length + 1 + bs.length + 1 + cs.length } : Ctx) =
      ⟨E, [.fin (digitsVal cs), vpow M (.fin (digitsVal as)) (.fin (digitsVal bs))], ['^'],
        as.length + 1 + bs.length + 1 + cs.length, [], false, false⟩ := by
    simp [pushNum]
  have hd5 : E.drop (as.length + 1 + bs.length + 1 + cs.length) = [] := by
    have h1 : E.drop (as.length + 1 + bs.length + 1 + cs.length) =
        (E.drop (as.length + 1 + bs.length + 1)).drop cs.length := by
      rw [List.drop_drop]
    rw [h1, hd4]
    simp
  have hend : getCh ⟨E, [.fin (digitsVal cs), vpow M (.fin (digitsVal as)) (.fin (digitsVal bs))],
      ['^'], as.length + 1 + bs.length + 1 + cs.length, [], false, false⟩ = none := by
    rw [getCh]
    dsimp only
    rw [hd5]
    rfl
  have s6 := gb_loop_end_step M L _ hend
  have hloop : gb_loop M (L + 6) ⟨E, [], [], 0, [], false, false⟩ =
      some (true, ⟨E, [.fin (digitsVal cs), vpow M (.fin (digitsVal as)) (.fin (digitsVal bs))],
        ['^'], as.length + 1 + bs.length + 1 + cs.length, [], false, false⟩) := by
    rw [show L + 6 = (L + 5) + 1 from rfl, s1, e1]
    rw [show L + 5 = (L + 4) + 1 from rfl, s2, e2]
    rw [show L + 4 = (L + 3) + 1 from rfl, s3, e3]
    rw [show L + 3 = (L + 2) + 1 from rfl, s4]
    rw [show L + 2 = (L + 1) + 1 from rfl, s5, e5]
    rw [show L + 1 = L + 1 from rfl]
    exact s6
  have hdrain := process_operators_caret_drain M E (.fin (digitsVal cs))
    (vpow M (.fin (digitsVal as)) (.fin (digitsVal bs)))
    (as.length + 1 + bs.length + 1 + cs.length) false false
  unfold gb_calc
  rw [hsan]
  dsimp only
  rw [hloop]
  dsimp only
  rw [hdrain]
  dsimp only
  rw [if_neg (by simp)]
  rw [vpow_natCast, vpow_natCast]
  rfl

/-! ### Precedence and left-associativity (claim C5) -/

/-- Claim C5.  The precedence table is `^`=4, `* / %`=3, `+ -`=2; `*` binds
before `+` (`"2+3*4"` = 14) and grouping overrides precedence
(`"(2+3)*4"` = 20); and every binary operator is left-associative, `^`
included: for all decimal literals `a`, `b`, `c`, the input `a^b^c`
evaluates to `(a^b)^c` (the strict `>` break condition of
`_process_binary` reduces on equal precedence). -/
theorem gb_calc_precedence_assoc (M : LibM) (as bs cs : List Char)
    (ha : as ≠ []) (hb : bs ≠ []) (hc : cs ≠ [])
    (hda : ∀ c ∈ as, isdigitC c = true) (hdb : ∀ c ∈ bs, isdigitC c = true)
    (hdc : ∀ c ∈ cs, isdigitC c = true)
    (hlen : as.length + bs.length + cs.length + 2 ≤ 255) :
    get_precedence '^' = 4 ∧ get_precedence '*' = 3 ∧ get_precedence '/' = 3 ∧
    get_precedence '%' = 3 ∧ get_precedence '+' = 2 ∧ get_precedence '-' = 2 ∧
    gb_calc M0 20 (some ['2', '+', '3', '*', '4']) = some ⟨.fin 14, [], false, false⟩ ∧
    gb_calc M0 20 (some ['(', '2', '+', '3', ')', '*', '4']) =
      some ⟨.fin 20, [], false, false⟩ ∧
    gb_calc M (as.length + bs.length + cs.length + 6) (some (as ++ '^' :: (bs ++ '^' :: cs))) =
      some ⟨.fin (((digitsVal as : ℚ) ^ digitsVal bs) ^ digitsVal cs), [], false, false⟩ :=
  ⟨by decide, by decide, by decide, by decide, by decide, by decide,
   by with_unfolding_all rfl, by with_unfolding_all rfl,
   gb_calc_caret_chain M as bs cs ha hb hc hda hdb hdc hlen⟩

/-- Witness for claim C5: `"2^3^2"` evaluates to `(2^3)^2 = 64`, not
`2^(3^2) = 512`. -/
theorem gb_calc_precedence_assoc_witness :
    ((['2'] : List Char) ≠ []) ∧ (∀ c ∈ (['2'] : List Char), isdigitC c = true) ∧
    (List.length ['2'] + List.length ['3'] + List.length ['2'] + 2 ≤ 255) ∧
    gb_calc M0 (List.length ['2'] + List.length ['3'] + List.length ['2'] + 6)
      (some (['2'] ++ '^' :: (['3'] ++ '^' :: ['2']))) =
      some ⟨.fin (((digitsVal ['2'] : ℚ) ^ digitsVal ['3']) ^ digitsVal ['2']), [], false, false⟩ :=
  ⟨by decide, by decide, by decide,
   (gb_calc_precedence_assoc M0 ['2'] ['3'] ['2'] (by decide) (by decide) (by decide)
     (by decide) (by decide) (by decide) (by decide)).2.2.2.2.2.2.2.2⟩
